import Mathlib

/-!
Verification development for the OpenQASMCompiler repository.

The definitions below are shallow embeddings of the C++ sources:

* `src/interpreter/quantum_state.cpp` — dense state-vector engine;
* `src/interpreter/quantum_circuit.cpp` — circuit representation and execution;
* `src/interpreter/quantum_debugger.cpp` — gate-level debugger;
* `src/circuit_optimizer.cpp` — rewrite-based circuit optimizer;
* the `QuantumSimulator` translation unit — gate application, stochastic
  noise and measurement for the polymorphic gate representation;
* `QuantumCircuit::addGate` — insertion-time validation.

Amplitudes are modelled as exact complex numbers (`ℂ`); the C++ `double`
arithmetic is embedded as exact real arithmetic.  A state vector is a total
function `ℕ → ℂ`; the engine only ever reads and writes indices below `2 ^ n`,
so values at larger indices are irrelevant junk.  Randomness
(`std::random_device` / `std::mt19937` / `std::uniform_real_distribution`
draws) is made explicit: every draw the C++ code performs becomes an explicit
real argument, or is consumed from an explicit entropy list.
-/

namespace OQC

/-- Embedding of `QuantumState::applySingleQubitGate` (quantum_state.cpp:15).
The loop walks the pairs `(idx0, idx1)` that differ exactly in bit `q`
(`idx0` has the bit clear) and sets `state[idx0] = m0*v0 + m1*v1`,
`state[idx1] = m2*v0 + m3*v1`.  Pointwise this is the function below. -/
def applySingleQubitGate (m0 m1 m2 m3 : ℂ) (q : ℕ) (ψ : ℕ → ℂ) : ℕ → ℂ :=
  fun i =>
    if i.testBit q then m2 * ψ (i - 2 ^ q) + m3 * ψ i
    else m0 * ψ i + m1 * ψ (i + 2 ^ q)

/-- The constant `inv_sqrt2 = 1.0 / std::sqrt(2.0)` from
`QuantumState::applyHadamard` (quantum_state.cpp:102). -/
noncomputable def invSqrt2 : ℝ := 1 / Real.sqrt 2

/-- Embedding of `QuantumState::applyHadamard` (quantum_state.cpp:101). -/
noncomputable def applyHadamard (q : ℕ) (ψ : ℕ → ℂ) : ℕ → ℂ :=
  applySingleQubitGate invSqrt2 invSqrt2 invSqrt2 (-invSqrt2) q ψ

/-- Embedding of `QuantumState::applyX` (quantum_state.cpp:120). -/
def applyX (q : ℕ) (ψ : ℕ → ℂ) : ℕ → ℂ :=
  applySingleQubitGate 0 1 1 0 q ψ

/-- Embedding of `QuantumState::applyY` (quantum_state.cpp:128). -/
def applyY (q : ℕ) (ψ : ℕ → ℂ) : ℕ → ℂ :=
  applySingleQubitGate 0 (-Complex.I) Complex.I 0 q ψ

/-- Embedding of `QuantumState::applyZ` (quantum_state.cpp:136). -/
def applyZ (q : ℕ) (ψ : ℕ → ℂ) : ℕ → ℂ :=
  applySingleQubitGate 1 0 0 (-1) q ψ

/-- Embedding of `QuantumState::applyPhase` (quantum_state.cpp:144). -/
noncomputable def applyPhase (q : ℕ) (angle : ℝ) (ψ : ℕ → ℂ) : ℕ → ℂ :=
  applySingleQubitGate 1 0 0 (Complex.exp (Complex.I * angle)) q ψ

/-- Embedding of `QuantumState::applyRx` (quantum_state.cpp:152). -/
noncomputable def applyRx (q : ℕ) (angle : ℝ) (ψ : ℕ → ℂ) : ℕ → ℂ :=
  applySingleQubitGate (Real.cos (angle / 2)) (-(Real.sin (angle / 2)) * Complex.I)
    (-(Real.sin (angle / 2)) * Complex.I) (Real.cos (angle / 2)) q ψ

/-- Embedding of `QuantumState::applyRy` (quantum_state.cpp:162). -/
noncomputable def applyRy (q : ℕ) (angle : ℝ) (ψ : ℕ → ℂ) : ℕ → ℂ :=
  applySingleQubitGate (Real.cos (angle / 2)) (-(Real.sin (angle / 2)))
    (Real.sin (angle / 2)) (Real.cos (angle / 2)) q ψ

/-- Embedding of `QuantumState::applyRz` (quantum_state.cpp:172). -/
noncomputable def applyRz (q : ℕ) (angle : ℝ) (ψ : ℕ → ℂ) : ℕ → ℂ :=
  applySingleQubitGate (Complex.exp (Complex.I * (-(angle : ℝ) / 2))) 0 0
    (Complex.exp (Complex.I * ((angle : ℝ) / 2))) q ψ

/-- Embedding of `QuantumState::applyTwoQubitGate` (quantum_state.cpp:33).
The code first sorts the two qubit indices (`if (qubit1 > qubit2) swap`),
then for every index quadruple `(idx00, idx01, idx10, idx11)` — where the
last digit is the bit at the smaller qubit index `a` and the first digit the
bit at the larger index `b` — applies the flat row-major 4×4 matrix `m`.
Pointwise: an index `i` belongs to the quadruple based at `i` with bits `a`
and `b` cleared, in slot `r = 2*(bit b) + (bit a)`. -/
def applyTwoQubitGate (q1 q2 : ℕ) (m : ℕ → ℂ) (ψ : ℕ → ℂ) : ℕ → ℂ :=
  fun i =>
    let a := min q1 q2
    let b := max q1 q2
    let base := (i - (if i.testBit a then 2 ^ a else 0)) -
      (if i.testBit b then 2 ^ b else 0)
    let r := (if i.testBit b then 2 else 0) + (if i.testBit a then 1 else 0)
    m (4 * r) * ψ base + m (4 * r + 1) * ψ (base + 2 ^ a) +
      m (4 * r + 2) * ψ (base + 2 ^ b) + m (4 * r + 3) * ψ (base + 2 ^ a + 2 ^ b)

/-- The flat CNOT matrix literal from `QuantumState::applyCNOT`
(quantum_state.cpp:111). -/
def cnotMatrix : ℕ → ℂ :=
  fun k => List.getD [1, 0, 0, 0, 0, 1, 0, 0, 0, 0, 0, 1, 0, 0, 1, 0] k 0

/-- Embedding of `QuantumState::applyCNOT` (quantum_state.cpp:110). -/
def applyCNOT (control target : ℕ) (ψ : ℕ → ℂ) : ℕ → ℂ :=
  applyTwoQubitGate control target cnotMatrix ψ

/-- Embedding of `QuantumState::normalize` (quantum_state.cpp:208): sum the
squared moduli of all `2 ^ n` amplitudes and divide every amplitude by the
square root of that sum. -/
noncomputable def normalize (n : ℕ) (ψ : ℕ → ℂ) : ℕ → ℂ :=
  let s := ∑ i ∈ Finset.range (2 ^ n), Complex.normSq (ψ i)
  fun i => ψ i / (Real.sqrt s : ℂ)

/-- Embedding of `QuantumState::measure` (quantum_state.cpp:180).  The code
computes `prob0` (mass of the amplitudes with bit `q` clear), draws a fresh
uniform `r` from a `std::random_device`-seeded `std::mt19937` — modelled here
as the explicit argument `r` — sets `result = r > prob0`, zeroes every
amplitude `i` with `((i & mask) == 0) == result`, normalizes, and returns
`result`.  No underflow check is performed anywhere on this path. -/
noncomputable def measureQS (n q : ℕ) (r : ℝ) (ψ : ℕ → ℂ) : Bool × (ℕ → ℂ) :=
  let prob0 := ∑ i ∈ Finset.range (2 ^ n),
    if i.testBit q then 0 else Complex.normSq (ψ i)
  let result : Bool := if r > prob0 then true else false
  let collapsed : ℕ → ℂ := fun i => if (!i.testBit q) = result then 0 else ψ i
  (result, normalize n collapsed)

/-- The gate tags of the interpreter-side circuit
(`QuantumCircuit::GateType`, src/interpreter/quantum_circuit.hpp). -/
inductive IGateType where
  | H | X | Y | Z | CNOT | SWAP | CZ | TOFFOLI | FREDKIN | RX | RY | RZ | MEASURE
deriving DecidableEq

/-- The `QuantumCircuit::Gate` struct (src/interpreter/quantum_circuit.hpp):
a tag, the qubit index list and a rotation angle. -/
structure IGate where
  gtype : IGateType
  qubits : List ℕ
  angle : ℝ

/-- Modelled from the spec: `QuantumState::applySWAP` is declared and called
by `QuantumCircuit::execute`, but its definition is absent from the sources.
The spec's gate taxonomy gives SWAP its standard meaning: exchange the bits
at the two qubit positions of every basis state. -/
def applySWAP (q1 q2 : ℕ) (ψ : ℕ → ℂ) : ℕ → ℂ :=
  fun i =>
    if i.testBit q1 = i.testBit q2 then ψ i
    else ψ ((i ^^^ (2 ^ q1)) ^^^ (2 ^ q2))

/-- Modelled from the spec: `QuantumState::applyCZ` is declared and called by
`QuantumCircuit::execute`, but its definition is absent from the sources.
The spec's gate taxonomy gives CZ its standard meaning: negate the amplitude
of basis states in which both qubits are set. -/
def applyCZ (q1 q2 : ℕ) (ψ : ℕ → ℂ) : ℕ → ℂ :=
  fun i => if i.testBit q1 ∧ i.testBit q2 then -ψ i else ψ i

/-- The flat 8×8 Toffoli matrix built by `QuantumState::applyToffoli`
(quantum_state.cpp:270): entry `M[i][i] = 1` for every `i ≠ 7`, plus
`M[7][6] = 1` (flat 62) and `M[6][7] = 1` (flat 55); all other entries 0. -/
def toffoliMatrix : ℕ → ℂ :=
  fun k =>
    if k = 0 ∨ k = 9 ∨ k = 18 ∨ k = 27 ∨ k = 36 ∨ k = 45 ∨ k = 54 ∨
        k = 55 ∨ k = 62 then 1 else 0

/-- The flat 8×8 Fredkin matrix built by `QuantumState::applyFredkin`
(quantum_state.cpp:285): `M[i][i] = 1` for `i ∉ {6,7}`, then the code sets the
diagonal entries `M[6][6] = 1` (flat 54) and `M[7][7] = 1` (flat 63), so the
matrix is the identity. -/
def fredkinMatrix : ℕ → ℂ :=
  fun k =>
    if k = 0 ∨ k = 9 ∨ k = 18 ∨ k = 27 ∨ k = 36 ∨ k = 45 ∨ k = 54 ∨ k = 63
    then 1 else 0

/-- Embedding of `QuantumState::applyThreeQubitGate` (quantum_state.cpp:226).
The implementation sorts the three qubits (`a ≤ b ≤ c`), then for every index
octuple writes only `state[idx000]` and `state[idx001]`; the update of the six
remaining slots is missing from the source (the loop body ends with the
comment "... continue for other indices").  Slot `k` of an octuple based at
`base` is `base + (k&1)*2^a + (k&2 ? 2^b : 0) + (k&4 ? 2^c : 0)`. -/
def applyThreeQubitGate (q1 q2 q3 : ℕ) (m : ℕ → ℂ) (ψ : ℕ → ℂ) : ℕ → ℂ :=
  fun i =>
    let a := min q1 (min q2 q3)
    let c := max q1 (max q2 q3)
    let b := (q1 + q2 + q3) - a - c
    if i.testBit b ∨ i.testBit c then ψ i
    else
      let base := i - (if i.testBit a then 2 ^ a else 0)
      let row := if i.testBit a then 8 else 0
      m row * ψ base + m (row + 1) * ψ (base + 2 ^ a) +
        m (row + 2) * ψ (base + 2 ^ b) + m (row + 3) * ψ (base + 2 ^ a + 2 ^ b) +
        m (row + 4) * ψ (base + 2 ^ c) + m (row + 5) * ψ (base + 2 ^ a + 2 ^ c) +
        m (row + 6) * ψ (base + 2 ^ b + 2 ^ c) +
        m (row + 7) * ψ (base + 2 ^ a + 2 ^ b + 2 ^ c)

/-- Embedding of `QuantumState::applyToffoli` (quantum_state.cpp:270). -/
def applyToffoli (c1 c2 t : ℕ) (ψ : ℕ → ℂ) : ℕ → ℂ :=
  applyThreeQubitGate c1 c2 t toffoliMatrix ψ

/-- Embedding of `QuantumState::applyFredkin` (quantum_state.cpp:285). -/
def applyFredkin (c t1 t2 : ℕ) (ψ : ℕ → ℂ) : ℕ → ℂ :=
  applyThreeQubitGate c t1 t2 fredkinMatrix ψ

/-- Embedding of `QuantumCircuit::execute` (src/interpreter/quantum_circuit.cpp:19):
run every gate of the list in order against the state.  `MEASURE` gates call
`QuantumState::measure` and discard the outcome; each such call consumes one
entropy value from `rs` (the code draws it from a fresh `std::random_device`). -/
noncomputable def executeC (n : ℕ) : List IGate → List ℝ → (ℕ → ℂ) → (ℕ → ℂ)
  | [], _, ψ => ψ
  | g :: rest, rs, ψ =>
    match g.gtype with
    | .H => executeC n rest rs (applyHadamard (g.qubits.getD 0 0) ψ)
    | .X => executeC n rest rs (applyX (g.qubits.getD 0 0) ψ)
    | .Y => executeC n rest rs (applyY (g.qubits.getD 0 0) ψ)
    | .Z => executeC n rest rs (applyZ (g.qubits.getD 0 0) ψ)
    | .CNOT => executeC n rest rs (applyCNOT (g.qubits.getD 0 0) (g.qubits.getD 1 0) ψ)
    | .SWAP => executeC n rest rs (applySWAP (g.qubits.getD 0 0) (g.qubits.getD 1 0) ψ)
    | .CZ => executeC n rest rs (applyCZ (g.qubits.getD 0 0) (g.qubits.getD 1 0) ψ)
    | .TOFFOLI => executeC n rest rs
        (applyToffoli (g.qubits.getD 0 0) (g.qubits.getD 1 0) (g.qubits.getD 2 0) ψ)
    | .FREDKIN => executeC n rest rs
        (applyFredkin (g.qubits.getD 0 0) (g.qubits.getD 1 0) (g.qubits.getD 2 0) ψ)
    | .RX => executeC n rest rs (applyRx (g.qubits.getD 0 0) g.angle ψ)
    | .RY => executeC n rest rs (applyRy (g.qubits.getD 0 0) g.angle ψ)
    | .RZ => executeC n rest rs (applyRz (g.qubits.getD 0 0) g.angle ψ)
    | .MEASURE => executeC n rest rs.tail
        (measureQS n (g.qubits.getD 0 0) (rs.headD 0) ψ).2

/-- The initial state `|0…0⟩` set up by the `QuantumState` constructor
(quantum_state.cpp:8): amplitude 1 at index 0, 0 elsewhere. -/
def initialState : ℕ → ℂ :=
  fun i => if i = 0 then 1 else 0

/-- The breakpoint tags of `QuantumDebugger::BreakpointType`
(src/interpreter/quantum_debugger.hpp). -/
inductive BreakpointKind where
  | GATE | STATE | PROBABILITY | CUSTOM
deriving DecidableEq

/-- The `QuantumDebugger::Breakpoint` struct: a tag, a predicate on the
quantum state, and a description string. -/
structure Breakpoint where
  kind : BreakpointKind
  condition : (ℕ → ℂ) → Bool
  description : String

/-- The mutable state of a `QuantumDebugger` (src/interpreter/quantum_debugger.hpp):
the current gate index, the referenced quantum state, the breakpoint list and
the `is_running` flag.  The referenced circuit is passed separately to `step`. -/
structure Debugger where
  currentGateIndex : ℕ
  stateVec : ℕ → ℂ
  breakpoints : List Breakpoint
  isRunning : Bool

/-- Embedding of `QuantumDebugger::step` (quantum_debugger.cpp:66).  When
`current_gate_index < circuit.getGates().size()` the code fetches the gate at
the current index but then calls `circuit.execute(state)` — which runs the
whole gate list — and increments the index (`updateStateInfo` is a no-op).
Otherwise nothing happens. -/
noncomputable def step (n : ℕ) (gates : List IGate) (rs : List ℝ) (d : Debugger) :
    Debugger :=
  if d.currentGateIndex < gates.length then
    { d with
      stateVec := executeC n gates rs d.stateVec
      currentGateIndex := d.currentGateIndex + 1 }
  else d

/-- Embedding of `QuantumDebugger::getEntanglement` (quantum_debugger.cpp:102):
the double loop adds `abs(state[i] * state[j])` for every index pair with
`(i ^ mask1 ^ mask2) == j`. -/
noncomputable def getEntanglement (n q1 q2 : ℕ) (ψ : ℕ → ℂ) : ℝ :=
  ∑ i ∈ Finset.range (2 ^ n), ∑ j ∈ Finset.range (2 ^ n),
    if (i ^^^ (2 ^ q1)) ^^^ (2 ^ q2) = j then Complex.abs (ψ i * ψ j) else 0

/-- The gate tags of the polymorphic circuit representation
(`qasm::GateType`, include/OpenQASMCompiler/quantum_circuit.hpp).  The
simulator translation unit spells the dagger tags `SDag`/`TDag`; they denote
the same enumerators. -/
inductive OGateType where
  | X | Y | Z | H | S | S_DAG | T | T_DAG | RX | RY | RZ | P | U1 | U2 | U3
  | CNOT | CZ | SWAP | CP | CRX | CRY | CRZ | CU1 | CU2 | CU3 | ISWAP | SQISWAP
  | CCX | CCZ | CSWAP | SYNC | MEASURE | RESET | CUSTOM
deriving DecidableEq

/-- A `qasm::QuantumGate` value as the optimizer and the simulator see it:
its tag (`getType`), qubit list (`getQubits`) and parameter list
(`getParameters`).  `CustomGate` additionally carries a name and a matrix
(quantum_gates.hpp:308); for the other gate classes those fields are empty. -/
structure OGate where
  gtype : OGateType
  qubits : List ℕ
  params : List ℝ
  gname : String := ""
  matrix : List (List ℂ) := []

instance : Inhabited OGate :=
  ⟨⟨OGateType.X, [], [], "", []⟩⟩

/-- The static table `CircuitOptimizer::cancellation_pairs`
(circuit_optimizer.cpp:8): X↦X, Y↦Y, Z↦Z, H↦H, S↦S†, S†↦S, T↦T†, T†↦T. -/
def cancellationPairs : OGateType → Option OGateType
  | .X => some .X
  | .Y => some .Y
  | .Z => some .Z
  | .H => some .H
  | .S => some .S_DAG
  | .S_DAG => some .S
  | .T => some .T_DAG
  | .T_DAG => some .T
  | _ => none

/-- Embedding of `CircuitOptimizer::canCancelGates` (circuit_optimizer.cpp:64):
requires equal gate types, equal qubit vectors, and a `cancellation_pairs`
entry mapping the first type to the second.  Parameters are not compared. -/
def canCancelGates (g1 g2 : OGate) : Bool :=
  decide (g1.gtype = g2.gtype) && decide (g1.qubits = g2.qubits) &&
    (match cancellationPairs g1.gtype with
     | some t => decide (t = g2.gtype)
     | none => false)

/-- The static table `CircuitOptimizer::merging_rules`
(circuit_optimizer.cpp:19): RX with RX, RY with RY, RZ with RZ, P with P. -/
def mergingRules : OGateType → OGateType → Bool
  | .RX, .RX => true
  | .RY, .RY => true
  | .RZ, .RZ => true
  | .P, .P => true
  | _, _ => false

/-- Embedding of `CircuitOptimizer::canMergeGates` (circuit_optimizer.cpp:81). -/
def canMergeGates (g1 g2 : OGate) : Bool :=
  decide (g1.gtype = g2.gtype) && decide (g1.qubits = g2.qubits) &&
    mergingRules g1.gtype g2.gtype

/-- Embedding of `CircuitOptimizer::mergeGates` (circuit_optimizer.cpp:102):
build a gate of the same kind on `qubits[0]` whose angle is the sum of the
two angles. -/
def mergeGates (g1 g2 : OGate) : Option OGate :=
  if canMergeGates g1 g2 then
    match g1.gtype with
    | .RX | .RY | .RZ | .P =>
        some ⟨g1.gtype, [g1.qubits.getD 0 0],
          [g1.params.getD 0 0 + g2.params.getD 0 0], "", []⟩
    | _ => none
  else none

/-- The static table `CircuitOptimizer::commutation_rules`
(circuit_optimizer.cpp:34). -/
def commutationRules : OGateType → List OGateType
  | .X => [.Z]
  | .Z => [.X]
  | .H => [.X, .Z]
  | .S => [.X]
  | .T => [.X]
  | _ => []

/-- Embedding of `CircuitOptimizer::canCommuteGates` (circuit_optimizer.cpp:138):
the two qubit lists must be element-wise disjoint, and the second gate's type
must appear in the first type's `commutation_rules` row. -/
def canCommuteGates (g1 g2 : OGate) : Bool :=
  (g1.qubits.all fun q1 => g2.qubits.all fun q2 => decide (q1 ≠ q2)) &&
    ((commutationRules g1.gtype).any fun t => decide (t = g2.gtype))

/-- The double erase performed by the cancellation pass
(circuit_optimizer.cpp:165): erase position `j` first, then position `i`
(with `i < j`). -/
def eraseTwo (gs : List OGate) (i j : ℕ) : List OGate :=
  (gs.eraseIdx j).eraseIdx i

/-- The nested loop of `CircuitOptimizer::applyCancellationRules`
(circuit_optimizer.cpp:159), written with explicit fuel.  For the gate at
position `i` the inner loop scans `j = i+1, i+2, …` and stops at the first
`j` with `canCancelGates(gates[i], gates[j])`; both gates are erased and —
because of the `--i` adjustment followed by the `++i` of the outer loop —
the scan resumes at the same position `i`.  Intervening gates between `i`
and `j` are never examined.  Each step either removes two gates or advances
`i`, so `2*length + 1` fuel always suffices. -/
def cancelLoop : ℕ → ℕ → List OGate → List OGate
  | 0, _, gs => gs
  | fuel + 1, i, gs =>
    if i < gs.length then
      match (List.range gs.length).find? (fun j =>
          decide (i < j) && canCancelGates (gs.getD i default) (gs.getD j default)) with
      | some j => cancelLoop fuel i (eraseTwo gs i j)
      | none => cancelLoop fuel (i + 1) gs
    else gs

/-- Embedding of `CircuitOptimizer::applyCancellationRules`
(circuit_optimizer.cpp:159). -/
def applyCancellationRules (gs : List OGate) : List OGate :=
  cancelLoop (2 * gs.length + 1) 0 gs

/-- The nested loop of `CircuitOptimizer::applyMergingRules`
(circuit_optimizer.cpp:174), with explicit fuel; same control flow as the
cancellation loop, but position `i` is overwritten with the merged gate and
only position `j` is erased.  (`mergeGates` cannot return `none` when
`canMergeGates` holds, so the `none` arm is unreachable.) -/
def mergeLoop : ℕ → ℕ → List OGate → List OGate
  | 0, _, gs => gs
  | fuel + 1, i, gs =>
    if i < gs.length then
      match (List.range gs.length).find? (fun j =>
          decide (i < j) && canMergeGates (gs.getD i default) (gs.getD j default)) with
      | some j =>
        match mergeGates (gs.getD i default) (gs.getD j default) with
        | some mg => mergeLoop fuel i ((gs.set i mg).eraseIdx j)
        | none => mergeLoop fuel (i + 1) gs
      | none => mergeLoop fuel (i + 1) gs
    else gs

/-- Embedding of `CircuitOptimizer::applyMergingRules`
(circuit_optimizer.cpp:174). -/
def applyMergingRules (gs : List OGate) : List OGate :=
  mergeLoop (2 * gs.length + 1) 0 gs

/-- Embedding of `CircuitOptimizer::applyCommutationRules`
(circuit_optimizer.cpp:192): a single left-to-right pass; at each position
the current pair is swapped when `canCommuteGates` holds, and the scan then
continues one position to the right.  (For an empty gate vector the C++
loop bound `size() - 1` underflows; no caller reaches that case and the
model returns the empty list.) -/
def commuteLoop : ℕ → List OGate → List OGate
  | 0, gs => gs
  | _, [] => []
  | _, [g] => [g]
  | fuel + 1, a :: b :: rest =>
    if canCommuteGates a b then b :: commuteLoop fuel (a :: rest)
    else a :: commuteLoop fuel (b :: rest)

/-- Embedding of `CircuitOptimizer::applyCommutationRules`
(circuit_optimizer.cpp:192): the loop advances one position per iteration
and runs `size - 1` times, so `length` fuel always suffices. -/
def applyCommutationRules (gs : List OGate) : List OGate :=
  commuteLoop gs.length gs

/-- Qubit-sharing test used by `reorderGates` via its `qubit_gates` index
(circuit_optimizer.cpp:206): gate `j` blocks gate `i` when they touch a
common qubit. -/
def sharesQubitWith (g1 g2 : OGate) : Bool :=
  g1.qubits.any fun q => g2.qubits.contains q

/-- The `can_add` test of `CircuitOptimizer::reorderGates`
(circuit_optimizer.cpp:222): gate `i` may join the current layer unless some
earlier gate sharing one of its qubits is still unused. -/
def canAddGate (gs : List OGate) (used : List Bool) (i : ℕ) : Bool :=
  (List.range gs.length).all fun j =>
    !(decide (j < i) && sharesQubitWith (gs.getD j default) (gs.getD i default) &&
      !(used.getD j false))

/-- One step of the layer-collecting sweep of `reorderGates`
(circuit_optimizer.cpp:220): an unused, addable gate is marked used and
appended to the current layer.  The `used` marks set earlier in the same
sweep are visible to later indices, exactly as in the C++ loop. -/
def sweepFold (gs : List OGate) (acc : List Bool × List ℕ) (i : ℕ) :
    List Bool × List ℕ :=
  if !(acc.1.getD i false) && canAddGate gs acc.1 i then
    (acc.1.set i true, acc.2 ++ [i])
  else acc

/-- The outer `while` of `CircuitOptimizer::reorderGates`
(circuit_optimizer.cpp:217), with explicit fuel: sweep repeatedly until all
gates are placed, concatenating the layers in order.  Every sweep places at
least the first unused gate, so `length` fuel always suffices. -/
def reorderLoop (gs : List OGate) : ℕ → List Bool → List ℕ → List ℕ
  | 0, _, acc => acc
  | fuel + 1, used, acc =>
    if acc.length < gs.length then
      let p := (List.range gs.length).foldl (sweepFold gs) (used, [])
      reorderLoop gs fuel p.1 (acc ++ p.2)
    else acc

/-- Embedding of `CircuitOptimizer::reorderGates` (circuit_optimizer.cpp:202). -/
def reorderGates (gs : List OGate) : List OGate :=
  (reorderLoop gs gs.length (List.replicate gs.length false) []).map fun i =>
    gs.getD i default

/-- Per-qubit activity count of `CircuitOptimizer::remapQubits`
(circuit_optimizer.cpp:249): the number of occurrences of `q` across all
gate qubit lists. -/
def qubitUsage (gs : List OGate) (q : ℕ) : ℕ :=
  (gs.map fun g => g.qubits.count q).sum

/-- Insertion step for sorting qubits by strictly descending usage. -/
def insertDesc (usage : ℕ → ℕ) (q : ℕ) : List ℕ → List ℕ
  | [] => [q]
  | x :: xs =>
    if usage q > usage x then q :: x :: xs else x :: insertDesc usage q xs

/-- The `std::sort` of `remapQubits` (circuit_optimizer.cpp:259), modelled as
a stable insertion sort with the same comparator `usage[a] > usage[b]`.
`std::sort` leaves the order of tied elements unspecified; whenever all usage
counts are distinct every comparator-consistent sort — including this one —
produces the same list. -/
def sortByUsageDesc (usage : ℕ → ℕ) (l : List ℕ) : List ℕ :=
  l.foldr (insertDesc usage) []

/-- Embedding of `CircuitOptimizer::remapQubits` (circuit_optimizer.cpp:247):
`remapping[qubit_order[i]] = i`, then every gate's qubit list is rewritten
through `remapping`. -/
def remapQubits (numQubits : ℕ) (gs : List OGate) : List OGate :=
  let order := sortByUsageDesc (qubitUsage gs) (List.range numQubits)
  let remapping : ℕ → ℕ := fun q => order.findIdx fun x => decide (x = q)
  gs.map fun g => { g with qubits := g.qubits.map remapping }

/-- Embedding of `CircuitOptimizer::optimize` (circuit_optimizer.cpp:42):
cancellation, merging, commutation, depth optimization (`reorderGates`) and
qubit remapping, in that order. -/
def optimize (numQubits : ℕ) (gs : List OGate) : List OGate :=
  remapQubits numQubits
    (reorderGates (applyCommutationRules (applyMergingRules (applyCancellationRules gs))))

/-- The circuit of include/OpenQASMCompiler/quantum_circuit.hpp: qubit count,
classical-bit count, and the gate list. -/
structure OCircuit where
  numQubits : ℕ
  numClassicalBits : ℕ
  gates : List OGate

/-- Embedding of `QuantumCircuit::addGate` (the translation unit containing
the circuit implementation): every qubit index of the gate is checked against
`num_qubits_`; an out-of-range index throws `std::out_of_range` before the
gate is stored (modelled as `none`, the circuit unchanged), otherwise the
gate is appended.  No other validation — in particular no unitarity or
dimension check of a `CustomGate` matrix — is performed. -/
def addGate (c : OCircuit) (g : OGate) : Option OCircuit :=
  if g.qubits.all fun q => decide (q < c.numQubits) then
    some { c with gates := c.gates ++ [g] }
  else none

/-- Entry `(i, j)` of a matrix stored as a list of rows. -/
def matEntry (M : List (List ℂ)) (i j : ℕ) : ℂ :=
  (M.getD i []).getD j 0

/-- Unitarity of a square row-list matrix up to tolerance `ε`: every entry of
`M†M` is within `ε` of the identity. -/
def unitaryWithin (M : List (List ℂ)) (ε : ℝ) : Prop :=
  ∀ i < M.length, ∀ j < M.length,
    Complex.abs
      ((∑ k ∈ Finset.range M.length,
        (starRingEnd ℂ) (matEntry M k i) * matEntry M k j) -
        if i = j then 1 else 0) ≤ ε

/-- The `NoiseModel` enumeration of the simulator translation unit. -/
inductive NoiseModel where
  | NONE | DEPOLARIZING | AMPLITUDE_DAMPING | PHASE_DAMPING
  | BIT_FLIP | PHASE_FLIP | BIT_PHASE_FLIP
deriving DecidableEq

namespace QSim

/-- Embedding of `QuantumSimulator::applySingleQubitGate`.  The loop visits
every index `i` with bit `q` clear, pairs it with `j = i | mask`, and writes
both slots from the saved pair `(a, b) = (ψ i, ψ j)`; pointwise this gives
one formula for bit-clear indices and one for bit-set indices.  Gate types
outside the eight handled cases throw in C++ and are unreachable through
`simulate`; the model leaves the state unchanged there. -/
noncomputable def applySingleQubitGate (t : OGateType) (q : ℕ) (ψ : ℕ → ℂ) :
    ℕ → ℂ :=
  fun i =>
    let j := i ^^^ 2 ^ q
    if i.testBit q then
      if t = OGateType.X then ψ j
      else if t = OGateType.Y then -Complex.I * ψ j
      else if t = OGateType.Z then -ψ i
      else if t = OGateType.H then (ψ j - ψ i) / (Real.sqrt 2 : ℂ)
      else if t = OGateType.S then Complex.I * ψ i
      else if t = OGateType.S_DAG then -Complex.I * ψ i
      else if t = OGateType.T then
        ((invSqrt2 : ℂ) + (invSqrt2 : ℂ) * Complex.I) * ψ i
      else if t = OGateType.T_DAG then
        ((invSqrt2 : ℂ) - (invSqrt2 : ℂ) * Complex.I) * ψ i
      else ψ i
    else
      if t = OGateType.X then ψ j
      else if t = OGateType.Y then Complex.I * ψ j
      else if t = OGateType.H then (ψ i + ψ j) / (Real.sqrt 2 : ℂ)
      else ψ i

/-- Embedding of `QuantumSimulator::applyTwoQubitGate`.  The loop visits
every index with the control bit set and writes both `new_state[i]` and
`new_state[j]` (`j = i ^ target_mask`); when `target ≠ control`, both members
of a pair have the control bit set, so each slot is written twice and the
write from the larger loop index wins.  Resolving the last write gives the
pointwise formulas below (for CNOT and SWAP the two writes agree).  The
remaining two-qubit types reach the C++ `default: throw` and are filtered
out before this function is applied. -/
noncomputable def applyTwoQubitGate (t : OGateType) (control target : ℕ)
    (ψ : ℕ → ℂ) : ℕ → ℂ :=
  fun i =>
    if i.testBit control then
      if t = OGateType.CNOT ∨ t = OGateType.SWAP then ψ (i ^^^ 2 ^ target)
      else if t = OGateType.CP then
        if i.testBit target then ψ i else Complex.I * ψ i
      else ψ i
    else ψ i

/-- Embedding of `QuantumSimulator::applyThreeQubitGate`, resolved to
last-write pointwise form in the same way as the two-qubit case: indices
with both control bits set act on the pair obtained by flipping the target
bit. -/
noncomputable def applyThreeQubitGate (t : OGateType) (c1 c2 tg : ℕ)
    (ψ : ℕ → ℂ) : ℕ → ℂ :=
  fun i =>
    if i.testBit c1 ∧ i.testBit c2 then
      if t = OGateType.CCX ∨ t = OGateType.CSWAP then ψ (i ^^^ 2 ^ tg)
      else if t = OGateType.CCZ then
        if i.testBit tg then ψ i else -ψ i
      else ψ i
    else ψ i

/-- Embedding of `QuantumSimulator::applyParameterizedGate` (U1/U2/U3),
pointwise over the bit-`q` pairs. -/
noncomputable def applyParameterizedGate (t : OGateType) (q : ℕ)
    (params : List ℝ) (ψ : ℕ → ℂ) : ℕ → ℂ :=
  fun i =>
    let j := i ^^^ 2 ^ q
    let p0 := params.getD 0 0
    let p1 := params.getD 1 0
    let p2 := params.getD 2 0
    if i.testBit q then
      if t = OGateType.U1 then Complex.exp (Complex.I * p0) * ψ i
      else if t = OGateType.U2 then
        (Complex.exp (Complex.I * p0) * ψ j -
          Complex.exp (Complex.I * (p0 + p1)) * ψ i) / (Real.sqrt 2 : ℂ)
      else if t = OGateType.U3 then
        Complex.exp (Complex.I * p1) * Real.sin (p0 / 2) * ψ j +
          Complex.exp (Complex.I * (p1 + p2)) * Real.cos (p0 / 2) * ψ i
      else ψ i
    else
      if t = OGateType.U1 then ψ i
      else if t = OGateType.U2 then
        (ψ i + Complex.exp (Complex.I * p1) * ψ j) / (Real.sqrt 2 : ℂ)
      else if t = OGateType.U3 then
        Real.cos (p0 / 2) * ψ i -
          Complex.exp (Complex.I * p2) * Real.sin (p0 / 2) * ψ j
      else ψ i

/-- Embedding of the stochastic noise dispatch
`QuantumSimulator::applyNoise` and the six `apply*Noise` helpers.  Each
helper first draws `dist_(rng_)` — consumed from the entropy list — and
fires only when the draw is below the noise parameter.  Depolarizing noise
draws a second value to choose among X, Y, Z.  Amplitude damping zeroes the
bit-set amplitudes; phase damping negates them; the flip noises apply the
corresponding Pauli gate.  No renormalization happens here. -/
noncomputable def applyNoise (model : NoiseModel) (p : ℝ) (q : ℕ)
    (ψ : ℕ → ℂ) (rs : List ℝ) : (ℕ → ℂ) × List ℝ :=
  match model with
  | .NONE => (ψ, rs)
  | .DEPOLARIZING =>
    if rs.headD 0 < p then
      let r := rs.tail.headD 0
      let ψ2 := if r < 1 / 3 then applySingleQubitGate .X q ψ
        else if r < 2 / 3 then applySingleQubitGate .Y q ψ
        else applySingleQubitGate .Z q ψ
      (ψ2, rs.tail.tail)
    else (ψ, rs.tail)
  | .AMPLITUDE_DAMPING =>
    if rs.headD 0 < p then
      ((fun i => if i.testBit q then 0 else ψ i), rs.tail)
    else (ψ, rs.tail)
  | .PHASE_DAMPING =>
    if rs.headD 0 < p then
      ((fun i => if i.testBit q then -ψ i else ψ i), rs.tail)
    else (ψ, rs.tail)
  | .BIT_FLIP =>
    if rs.headD 0 < p then (applySingleQubitGate .X q ψ, rs.tail)
    else (ψ, rs.tail)
  | .PHASE_FLIP =>
    if rs.headD 0 < p then (applySingleQubitGate .Z q ψ, rs.tail)
    else (ψ, rs.tail)
  | .BIT_PHASE_FLIP =>
    if rs.headD 0 < p then (applySingleQubitGate .Y q ψ, rs.tail)
    else (ψ, rs.tail)

/-- The per-gate body of `QuantumSimulator::simulate`: dispatch on the gate
type (`none` models the `throw std::runtime_error("Unsupported gate type")`
default, and likewise the unsupported cases of the two-qubit switch), then,
when a noise model is active, apply noise to every qubit of the gate in
order. -/
noncomputable def simulateGates (noise : NoiseModel) (p : ℝ) :
    List OGate → List ℝ → (ℕ → ℂ) → Option ((ℕ → ℂ) × List ℝ)
  | [], rs, ψ => some (ψ, rs)
  | g :: rest, rs, ψ =>
    let t := g.gtype
    let applied : Option (ℕ → ℂ) :=
      if t = OGateType.X ∨ t = OGateType.Y ∨ t = OGateType.Z ∨ t = OGateType.H ∨
          t = OGateType.S ∨ t = OGateType.S_DAG ∨ t = OGateType.T ∨
          t = OGateType.T_DAG then
        some (applySingleQubitGate t (g.qubits.getD 0 0) ψ)
      else if t = OGateType.CNOT ∨ t = OGateType.SWAP ∨ t = OGateType.CP then
        some (applyTwoQubitGate t (g.qubits.getD 0 0) (g.qubits.getD 1 0) ψ)
      else if t = OGateType.CCX ∨ t = OGateType.CCZ ∨ t = OGateType.CSWAP then
        some (applyThreeQubitGate t (g.qubits.getD 0 0) (g.qubits.getD 1 0)
          (g.qubits.getD 2 0) ψ)
      else if t = OGateType.U1 ∨ t = OGateType.U2 ∨ t = OGateType.U3 then
        some (applyParameterizedGate t (g.qubits.getD 0 0) g.params ψ)
      else none
    match applied with
    | none => none
    | some ψ1 =>
      let st :=
        if noise ≠ NoiseModel.NONE then
          g.qubits.foldl (fun acc q => applyNoise noise p q acc.1 acc.2) (ψ1, rs)
        else (ψ1, rs)
      simulateGates noise p rest st.2 st.1

/-- Embedding of `QuantumSimulator::simulate`: run all gates (with per-gate
noise when enabled), then `normalizeState` — which divides by the square root
of the total squared norm, exactly as `QuantumState::normalize`. -/
noncomputable def simulate (n : ℕ) (noise : NoiseModel) (p : ℝ)
    (gs : List OGate) (rs : List ℝ) (ψ : ℕ → ℂ) : Option (ℕ → ℂ) :=
  match simulateGates noise p gs rs ψ with
  | none => none
  | some st => some (normalize n st.1)

/-- Embedding of `QuantumSimulator::measure`: probability of drawing 1 is the
mass on the bit-set amplitudes; the outcome is `r < probability`; surviving
amplitudes are divided by the square root of their branch mass and the
others zeroed. -/
noncomputable def measureSim (n q : ℕ) (r : ℝ) (ψ : ℕ → ℂ) : Bool × (ℕ → ℂ) :=
  let probability := ∑ i ∈ Finset.range (2 ^ n),
    if i.testBit q then Complex.normSq (ψ i) else 0
  let result : Bool := if r < probability then true else false
  (result, fun i =>
    if i.testBit q then
      if result then ψ i / (Real.sqrt probability : ℂ) else 0
    else
      if result then 0 else ψ i / (Real.sqrt (1 - probability) : ℂ))

end QSim

/-! Concrete gates, circuits and states used by the theorems below. -/

/-- Interpreter-side Pauli-X gate on qubit 0. -/
def xI0 : IGate := ⟨IGateType.X, [0], 0⟩

/-- Interpreter-side Hadamard gate on qubit 0. -/
def hI0 : IGate := ⟨IGateType.H, [0], 0⟩

/-- Interpreter-side Hadamard gate on qubit 1. -/
def hI1 : IGate := ⟨IGateType.H, [1], 0⟩

/-- Interpreter-side CNOT gate with control qubit 0 and target qubit 1. -/
def cnotI01 : IGate := ⟨IGateType.CNOT, [0, 1], 0⟩

/-- Optimizer-side Pauli-X gate on qubit 0. -/
def xO0 : OGate := ⟨OGateType.X, [0], [], "", []⟩

/-- Optimizer-side Hadamard gate on qubit 0. -/
def hO0 : OGate := ⟨OGateType.H, [0], [], "", []⟩

/-- Optimizer-side CNOT gate with control qubit 0 and target qubit 1. -/
def cnotO01 : OGate := ⟨OGateType.CNOT, [0, 1], [], "", []⟩

/-- The basis state `|q0 = 1⟩` of a one-qubit register. -/
def basisOne : ℕ → ℂ := fun i => if i = 1 then 1 else 0

/-- The everywhere-zero amplitude vector. -/
def zeroState : ℕ → ℂ := fun _ => 0

/-! Bit-test facts about small literals, used to evaluate the engine on
concrete states. -/

@[simp] theorem testBit00 : Nat.testBit 0 0 = false := by decide

@[simp] theorem testBit10 : Nat.testBit 1 0 = true := by decide

@[simp] theorem testBit20 : Nat.testBit 2 0 = false := by decide

@[simp] theorem testBit30 : Nat.testBit 3 0 = true := by decide

@[simp] theorem testBit01 : Nat.testBit 0 1 = false := by decide

@[simp] theorem testBit11 : Nat.testBit 1 1 = false := by decide

@[simp] theorem testBit21 : Nat.testBit 2 1 = true := by decide

@[simp] theorem testBit31 : Nat.testBit 3 1 = true := by decide

/-! Xor facts about small literals. -/

@[simp] theorem xor01 : (0 ^^^ 1 : ℕ) = 1 := by decide

@[simp] theorem xor11 : (1 ^^^ 1 : ℕ) = 0 := by decide

@[simp] theorem xor21 : (2 ^^^ 1 : ℕ) = 3 := by decide

@[simp] theorem xor31 : (3 ^^^ 1 : ℕ) = 2 := by decide

@[simp] theorem xor02 : (0 ^^^ 2 : ℕ) = 2 := by decide

@[simp] theorem xor12 : (1 ^^^ 2 : ℕ) = 3 := by decide

@[simp] theorem xor22 : (2 ^^^ 2 : ℕ) = 0 := by decide

@[simp] theorem xor32 : (3 ^^^ 2 : ℕ) = 1 := by decide

/-! Arithmetic helpers about `1/√2`. -/

theorem invSqrt2_mul_self : invSqrt2 * invSqrt2 = 1 / 2 := by
  rw [invSqrt2, div_mul_div_comm, one_mul, Real.mul_self_sqrt (by norm_num : (0:ℝ) ≤ 2)]

theorem invSqrt2_nonneg : 0 ≤ invSqrt2 := by
  rw [invSqrt2]
  positivity

theorem normSq_invSqrt2 : Complex.normSq ((invSqrt2 : ℝ) : ℂ) = 1 / 2 := by
  rw [Complex.normSq_ofReal, invSqrt2_mul_self]

theorem abs_half : |(1 : ℝ) / 2| = 1 / 2 := abs_of_nonneg (by norm_num)

/-- Shared evaluation lemma: the state returned by `measureQS` is, pointwise,
the collapsed amplitude divided by the square root of the surviving mass
(that mass is `p_outcome`, since `normalize` sums the squared moduli of the
already-collapsed vector). -/
theorem measureQS_snd_eq (n q : ℕ) (r : ℝ) (ψ : ℕ → ℂ) (i : ℕ) :
    (measureQS n q r ψ).2 i =
      (if (!i.testBit q) = (measureQS n q r ψ).1 then 0 else ψ i) /
        ((Real.sqrt (∑ k ∈ Finset.range (2 ^ n),
          if (!k.testBit q) = (measureQS n q r ψ).1 then 0
          else Complex.normSq (ψ k)) : ℝ) : ℂ) := by
  simp only [measureQS, normalize, apply_ite Complex.normSq, Complex.normSq_zero]

/-! Claim C10. -/

/-- Claim C10: calling the debugger's `step` when `current_gate_index` is at
or beyond the number of gates of the circuit is a no-op — the quantum state,
the breakpoint list, the running flag and `current_gate_index` are all
unchanged, and there is no error path. -/
theorem step_at_end_is_noop (n : ℕ) (gates : List IGate) (rs : List ℝ)
    (d : Debugger) (h : gates.length ≤ d.currentGateIndex) :
    step n gates rs d = d := by
  unfold step
  rw [if_neg (by omega)]

/-- Witness for C10: a debugger whose index 5 is past the single gate of the
circuit is returned unchanged by `step`. -/
theorem step_at_end_is_noop_witness :
    [xI0].length ≤ (5 : ℕ) ∧
      step 1 [xI0] [] ⟨5, initialState, [], false⟩ =
        ⟨5, initialState, [], false⟩ :=
  ⟨by simp, step_at_end_is_noop 1 [xI0] [] ⟨5, initialState, [], false⟩ (by simp)⟩

/-! Claim C2. -/

/-- Claim C2 (code bug): `QuantumDebugger::step` fetches the gate at
`current_gate_index` but then calls `circuit.execute(state)`, which applies
the whole gate list, not just that one gate.  On the circuit `[X q0, X q0]`
a fresh debugger's first `step` leaves the state at `|0⟩` (both X gates
applied) and sets the index to 1, whereas applying only the gate at index 0
would put the amplitude on `|1⟩` — the claimed behavior. -/
theorem step_applies_whole_circuit :
    (step 1 [xI0, xI0] [] ⟨0, initialState, [], false⟩).currentGateIndex = 1 ∧
      (step 1 [xI0, xI0] [] ⟨0, initialState, [], false⟩).stateVec 0 = 1 ∧
      (step 1 [xI0, xI0] [] ⟨0, initialState, [], false⟩).stateVec 1 = 0 ∧
      applyX 0 initialState 1 = 1 ∧ applyX 0 initialState 0 = 0 := by
  refine ⟨?_, ?_, ?_, ?_, ?_⟩ <;>
    simp [step, executeC, xI0, applyX, applySingleQubitGate, initialState,
      Nat.testBit]

/-! Claim C7. -/

/-- Claim C7 counterexample: two equal adjacent CNOT gates are not cancelled
by `applyCancellationRules` — `GateType::CNOT` has no entry in
`cancellation_pairs`, so the pass returns the list unchanged, while the
claim says equal adjacent CNOT pairs are cancelled. -/
theorem cancellation_keeps_adjacent_cnot_pair :
    applyCancellationRules [cnotO01, cnotO01] = [cnotO01, cnotO01] := by
  rfl

/-- Claim C7 (amended): `canCancelGates` holds exactly when the two gates
have the same type, the same qubit list, and that type is one of X, Y, Z, H.
The S↦S† and T↦T† rows of `cancellation_pairs` are unreachable because the
function first requires the two types to be equal, and no controlled gate is
in the table; parameters and intervening gates are never examined. -/
theorem canCancelGates_characterization (g1 g2 : OGate) :
    canCancelGates g1 g2 = true ↔
      g1.gtype = g2.gtype ∧ g1.qubits = g2.qubits ∧
        (g1.gtype = OGateType.X ∨ g1.gtype = OGateType.Y ∨
          g1.gtype = OGateType.Z ∨ g1.gtype = OGateType.H) := by
  obtain ⟨t1, q1, p1, n1, m1⟩ := g1
  obtain ⟨t2, q2, p2, n2, m2⟩ := g2
  simp only [canCancelGates, Bool.and_eq_true, decide_eq_true_eq]
  cases t1 <;> cases t2 <;> simp [cancellationPairs]

/-! Claim C8. -/

/-- The non-unitary custom gate `diag(2, 2)` on qubit 0 used to refute C8. -/
def badCustomGate : OGate :=
  ⟨OGateType.CUSTOM, [0], [], "bad", [[2, 0], [0, 2]]⟩

/-- The empty one-qubit circuit. -/
def oneQubitCircuit : OCircuit := ⟨1, 0, []⟩

/-- Claim C8 counterexample: a custom gate whose matrix `diag(2,2)` is far
from unitary (the `(0,0)` entry of `M†M` is 4, at distance 3 > 10⁻⁹ from the
identity) is accepted by `addGate` and appended to the circuit; nothing is
rejected at insertion time. -/
theorem addGate_accepts_nonunitary_custom :
    ¬ unitaryWithin badCustomGate.matrix (1e-9) ∧
      addGate oneQubitCircuit badCustomGate =
        some ⟨1, 0, [badCustomGate]⟩ := by
  constructor
  · intro h
    have h00 := h 0 (by norm_num [badCustomGate]) 0 (by norm_num [badCustomGate])
    simp only [badCustomGate, matEntry] at h00
    norm_num [Finset.sum_range_succ, Complex.abs_apply, Complex.normSq] at h00
    have h9 : Real.sqrt 9 = 3 := by
      rw [show (9 : ℝ) = 3 ^ 2 by norm_num]
      exact Real.sqrt_sq (by norm_num)
    rw [h9] at h00
    norm_num at h00
  · rfl

/-- Claim C8 (amended): `addGate` validates only that every qubit index of
the gate is below the circuit's qubit count; any gate passing that check —
including a `CustomGate` with an arbitrary matrix — is appended unchanged. -/
theorem addGate_checks_only_qubit_range (c : OCircuit) (g : OGate)
    (h : ∀ q ∈ g.qubits, q < c.numQubits) :
    addGate c g = some { c with gates := c.gates ++ [g] } := by
  unfold addGate
  rw [if_pos]
  simp only [List.all_eq_true, decide_eq_true_eq]
  exact h

/-- Witness for the amended C8 theorem: the bad custom gate's only qubit, 0,
is in range for the one-qubit circuit, and `addGate` appends it. -/
theorem addGate_checks_only_qubit_range_witness :
    addGate oneQubitCircuit badCustomGate = some ⟨1, 0, [badCustomGate]⟩ := by
  have := addGate_checks_only_qubit_range oneQubitCircuit badCustomGate
    (by intro q hq; simp only [badCustomGate, List.mem_singleton] at hq; subst hq; norm_num [oneQubitCircuit])
  simpa [oneQubitCircuit] using this

/-! Claim C3. -/

/-- Claim C3 counterexample: measuring qubit 0 of the one-qubit state `|1⟩`
with device draw `r = 0` selects outcome 0 — whose probability
`p_outcome = 0` is below `10⁻¹²` — yet `measure` raises no error: it
collapses, divides the all-zero collapsed vector by `√0 = 0`, and returns
outcome `false` together with a state.  (In C++ the division `0.0/0.0`
yields NaN amplitudes; in the exact model division by zero yields 0; either
way a state is produced and no `UnderflowError` exists on this path.) -/
theorem measure_zero_probability_no_underflow_error :
    (∑ i ∈ Finset.range (2 ^ 1),
        if (!i.testBit 0) = (measureQS 1 0 0 basisOne).1 then 0
        else Complex.normSq (basisOne i)) < 1e-12 ∧
      measureQS 1 0 0 basisOne = (false, zeroState) := by
  have hp : (∑ i ∈ Finset.range (2 ^ 1),
      if i.testBit 0 then 0 else Complex.normSq (basisOne i)) = 0 := by
    simp [Finset.sum_range_succ, basisOne]
  have hres : (measureQS 1 0 0 basisOne).1 = false := by
    simp only [measureQS, hp]
    norm_num
  have hmass : (∑ k ∈ Finset.range (2 ^ 1),
      if (!k.testBit 0) = (measureQS 1 0 0 basisOne).1 then 0
      else Complex.normSq (basisOne k)) = 0 := by
    rw [hres]
    simp [Finset.sum_range_succ, basisOne]
  constructor
  · rw [hmass]
    norm_num
  · have hstate : (measureQS 1 0 0 basisOne).2 = zeroState := by
      funext i
      rw [measureQS_snd_eq, hmass, zeroState]
      simp
    calc measureQS 1 0 0 basisOne
        = ((measureQS 1 0 0 basisOne).1, (measureQS 1 0 0 basisOne).2) := rfl
      _ = (false, zeroState) := by rw [hres, hstate]

/-- Claim C3 (amended): `QuantumState::measure` zeroes the amplitudes
inconsistent with the drawn outcome and divides every surviving amplitude by
`√p_outcome`, where `p_outcome` is the total squared mass of the surviving
amplitudes among the first `2 ^ n` — because `normalize` is invoked on the
collapsed vector, whose norm is exactly `p_outcome`.  No underflow check is
performed. -/
theorem measure_collapse_divides_by_sqrt_outcome_mass (n q : ℕ) (r : ℝ)
    (ψ : ℕ → ℂ) (i : ℕ) :
    (measureQS n q r ψ).2 i =
      (if (!i.testBit q) = (measureQS n q r ψ).1 then 0 else ψ i) /
        ((Real.sqrt (∑ k ∈ Finset.range (2 ^ n),
          if (!k.testBit q) = (measureQS n q r ψ).1 then 0
          else Complex.normSq (ψ k)) : ℝ) : ℂ) :=
  measureQS_snd_eq n q r ψ i

/-! Claim C5. -/

/-- The one-qubit state `H|0⟩`, through the interpreter engine. -/
noncomputable def hPlusState : ℕ → ℂ := applyHadamard 0 initialState

/-- Claim C5 (code bug): `QuantumState::measure` draws its randomness from a
freshly constructed `std::random_device`-seeded `std::mt19937` on every
call; no engine-level seed exists or is consulted.  Consequently the
measurement outcome is a function of the per-call device draw: on the state
`H|0⟩` the draw `1/4` yields outcome 0 and the draw `3/4` yields outcome 1,
although every engine-level input (circuit, initial state, and any would-be
seed) is identical.  Reproducibility between same-seeded engines therefore
fails. -/
theorem measure_outcome_depends_on_device_entropy :
    (measureQS 1 0 (1 / 4) hPlusState).1 = false ∧
      (measureQS 1 0 (3 / 4) hPlusState).1 = true := by
  have h0 : hPlusState 0 = ((invSqrt2 : ℝ) : ℂ) := by
    simp [hPlusState, applyHadamard, applySingleQubitGate, initialState]
  have hp : (∑ i ∈ Finset.range (2 ^ 1),
      if i.testBit 0 then 0 else Complex.normSq (hPlusState i)) = 1 / 2 := by
    simp [Finset.sum_range_succ, h0, Complex.normSq_ofReal, invSqrt2_mul_self]
  constructor
  · simp only [measureQS, hp]
    norm_num
  · simp only [measureQS, hp]
    norm_num

/-! Claim C4. -/

/-- The state produced by the interpreter engine for the Bell circuit
`H q0; CNOT(control 0, target 1)` from `|00⟩`. -/
noncomputable def bellStateI : ℕ → ℂ := executeC 2 [hI0, cnotI01] [] initialState

/-- Claim C4 (code bug): on the Bell circuit the engine produces
`|ψ[0]|² = |ψ[1]|² = 1/2` and `|ψ[2]|² = |ψ[3]|² = 0` instead of the claimed
`|ψ[0]|² = |ψ[3]|² = 0.5`, `|ψ[1]|² = |ψ[2]|² = 0`:
`QuantumState::applyTwoQubitGate` sorts its two qubit arguments and ties the
matrix rows to bit positions, so `applyCNOT(0, 1)` conditions on qubit 1 and
flips qubit 0 — the control/target roles are exchanged whenever
`control < target`.  In particular `|ψ[1]|²` is not within `10⁻¹²` of 0 and
`|ψ[3]|²` is not within `10⁻¹²` of 0.5. -/
theorem bell_circuit_wrong_amplitudes :
    Complex.normSq (bellStateI 0) = 1 / 2 ∧
      Complex.normSq (bellStateI 1) = 1 / 2 ∧
      Complex.normSq (bellStateI 2) = 0 ∧
      Complex.normSq (bellStateI 3) = 0 ∧
      ¬ |Complex.normSq (bellStateI 1) - 0| < 1e-12 ∧
      ¬ |Complex.normSq (bellStateI 3) - 0.5| < 1e-12 := by
  have hH0 : applyHadamard 0 initialState 0 = ((invSqrt2 : ℝ) : ℂ) := by
    simp [applyHadamard, applySingleQubitGate, initialState]
  have hH1 : applyHadamard 0 initialState 1 = ((invSqrt2 : ℝ) : ℂ) := by
    simp [applyHadamard, applySingleQubitGate, initialState]
  have hH2 : applyHadamard 0 initialState 2 = 0 := by
    simp [applyHadamard, applySingleQubitGate, initialState]
  have hH3 : applyHadamard 0 initialState 3 = 0 := by
    simp [applyHadamard, applySingleQubitGate, initialState]
  have hb : ∀ i, bellStateI i = applyCNOT 0 1 (applyHadamard 0 initialState) i := by
    intro i
    simp [bellStateI, executeC, hI0, cnotI01]
  have e0 : bellStateI 0 = ((invSqrt2 : ℝ) : ℂ) := by
    rw [hb]
    simp [applyCNOT, applyTwoQubitGate, cnotMatrix, hH0, hH1, hH2, hH3]
  have e1 : bellStateI 1 = ((invSqrt2 : ℝ) : ℂ) := by
    rw [hb]
    simp [applyCNOT, applyTwoQubitGate, cnotMatrix, hH0, hH1, hH2, hH3]
  have e2 : bellStateI 2 = 0 := by
    rw [hb]
    simp [applyCNOT, applyTwoQubitGate, cnotMatrix, hH0, hH1, hH2, hH3]
  have e3 : bellStateI 3 = 0 := by
    rw [hb]
    simp [applyCNOT, applyTwoQubitGate, cnotMatrix, hH0, hH1, hH2, hH3]
  refine ⟨?_, ?_, ?_, ?_, ?_, ?_⟩
  · rw [e0, normSq_invSqrt2]
  · rw [e1, normSq_invSqrt2]
  · rw [e2]; simp
  · rw [e3]; simp
  · rw [e1, normSq_invSqrt2]; norm_num [abs_half]
  · rw [e3]; norm_num [abs_half, abs_neg]

/-! Claim C9. -/

/-- The product state `|+⟩ ⊗ |+⟩` produced by the interpreter engine for the
circuit `H q0; H q1` from `|00⟩`; every amplitude is `(1/√2)·(1/√2)`. -/
noncomputable def plusPlusState : ℕ → ℂ := executeC 2 [hI0, hI1] [] initialState

/-- The Bell state `(|00⟩ + |11⟩)/√2` given directly as an amplitude vector. -/
noncomputable def bellPhiPlus : ℕ → ℂ :=
  fun i => if i = 0 ∨ i = 3 then ((invSqrt2 : ℝ) : ℂ) else 0

theorem plusPlus_amplitudes : ∀ i < 4,
    plusPlusState i = ((invSqrt2 : ℝ) : ℂ) * ((invSqrt2 : ℝ) : ℂ) := by
  have h0 : applyHadamard 0 initialState 0 = ((invSqrt2 : ℝ) : ℂ) := by
    simp [applyHadamard, applySingleQubitGate, initialState]
  have h1 : applyHadamard 0 initialState 1 = ((invSqrt2 : ℝ) : ℂ) := by
    simp [applyHadamard, applySingleQubitGate, initialState]
  have h2 : applyHadamard 0 initialState 2 = 0 := by
    simp [applyHadamard, applySingleQubitGate, initialState]
  have h3 : applyHadamard 0 initialState 3 = 0 := by
    simp [applyHadamard, applySingleQubitGate, initialState]
  have hb : ∀ i, plusPlusState i = applyHadamard 1 (applyHadamard 0 initialState) i := by
    intro i
    simp [plusPlusState, executeC, hI0, hI1]
  intro i hi
  interval_cases i <;>
    rw [hb] <;>
    simp [applyHadamard, applySingleQubitGate, initialState, h0, h1, h2, h3]

/-- Claim C9 counterexample: on the product state `|+⟩ ⊗ |+⟩` — whose every
amplitude factors as `(1/√2)·(1/√2)` — the debugger's entanglement routine
returns 1, whereas the standard two-qubit concurrence of any product state
is 0.  The routine does not compute the Wootters concurrence. -/
theorem entanglement_one_on_product_state :
    (∀ i < 4, plusPlusState i = ((invSqrt2 : ℝ) : ℂ) * ((invSqrt2 : ℝ) : ℂ)) ∧
      getEntanglement 2 0 1 plusPlusState = 1 := by
  refine ⟨plusPlus_amplitudes, ?_⟩
  have habs : Complex.abs ((((invSqrt2 : ℝ) : ℂ) * ((invSqrt2 : ℝ) : ℂ)) *
      (((invSqrt2 : ℝ) : ℂ) * ((invSqrt2 : ℝ) : ℂ))) = 1 / 4 := by
    have : ((((invSqrt2 : ℝ) : ℂ) * ((invSqrt2 : ℝ) : ℂ)) *
        (((invSqrt2 : ℝ) : ℂ) * ((invSqrt2 : ℝ) : ℂ))) =
        (((invSqrt2 * invSqrt2 * (invSqrt2 * invSqrt2) : ℝ)) : ℂ) := by
      push_cast
      ring
    rw [this, Complex.abs_ofReal, invSqrt2_mul_self]
    norm_num
  have e0 := plusPlus_amplitudes 0 (by norm_num)
  have e1 := plusPlus_amplitudes 1 (by norm_num)
  have e2 := plusPlus_amplitudes 2 (by norm_num)
  have e3 := plusPlus_amplitudes 3 (by norm_num)
  rw [getEntanglement]
  norm_num [Finset.sum_range_succ, e0, e1, e2, e3, habs]
  simp only [invSqrt2_mul_self]
  norm_num

/-- Claim C9 (amended): the routine's double loop evaluates to the single
sum `Σ_i |ψ_i · ψ_{i ⊕ 2^q1 ⊕ 2^q2}|` over basis indices — the quantity the
code labels "concurrence" — provided both qubit indices are in range, so
that the partner index stays inside the summation range. -/
theorem getEntanglement_eq_single_sum (n q1 q2 : ℕ) (ψ : ℕ → ℂ)
    (h1 : q1 < n) (h2 : q2 < n) :
    getEntanglement n q1 q2 ψ =
      ∑ i ∈ Finset.range (2 ^ n),
        Complex.abs (ψ i * ψ ((i ^^^ (2 ^ q1)) ^^^ (2 ^ q2))) := by
  rw [getEntanglement]
  refine Finset.sum_congr rfl fun i hi => ?_
  rw [Finset.sum_ite_eq (Finset.range (2 ^ n))]
  rw [if_pos]
  rw [Finset.mem_range] at hi ⊢
  exact Nat.xor_lt_two_pow (Nat.xor_lt_two_pow hi (Nat.pow_lt_pow_right one_lt_two h1))
    (Nat.pow_lt_pow_right one_lt_two h2)

/-- Witness for the amended C9 theorem: at `n = 2`, `q1 = 0`, `q2 = 1` the
double sum collapses to the single sum over partners `i ⊕ 3`, evaluated here
on the Bell state, where both sides equal 1. -/
theorem getEntanglement_eq_single_sum_witness :
    getEntanglement 2 0 1 bellPhiPlus =
      ∑ i ∈ Finset.range (2 ^ 2),
        Complex.abs (bellPhiPlus i * bellPhiPlus ((i ^^^ (2 ^ 0)) ^^^ (2 ^ 1))) ∧
      getEntanglement 2 0 1 bellPhiPlus = 1 := by
  constructor
  · exact getEntanglement_eq_single_sum 2 0 1 bellPhiPlus (by norm_num) (by norm_num)
  · have habs : Complex.abs (((invSqrt2 : ℝ) : ℂ) * ((invSqrt2 : ℝ) : ℂ)) = 1 / 2 := by
      have : (((invSqrt2 : ℝ) : ℂ) * ((invSqrt2 : ℝ) : ℂ)) =
          (((invSqrt2 * invSqrt2 : ℝ)) : ℂ) := by
        push_cast
        ring
      rw [this, Complex.abs_ofReal, invSqrt2_mul_self]
      norm_num
    rw [getEntanglement]
    norm_num [Finset.sum_range_succ, bellPhiPlus, habs]

/-! Claim C6. -/

/-- Claim C6 (code bug): executing the legal one-qubit circuit `[X q0]` with
the amplitude-damping noise model at rate `γ = 1` zeroes the whole state:
the X gate moves the mass to `|1⟩`, the noise helper then zeroes every
amplitude with bit 0 set without renormalizing, and the final
`normalizeState` divides the all-zero vector by `√0` (NaN amplitudes in C++,
zero in the exact model).  The final squared norm is 0, not within `10⁻⁹`
of 1. -/
theorem amplitude_damping_zeroes_state :
    QSim.simulate 1 NoiseModel.AMPLITUDE_DAMPING 1 [xO0] [1 / 2] initialState =
        some zeroState ∧
      ¬ |(∑ i ∈ Finset.range (2 ^ 1), Complex.normSq (zeroState i)) - 1| < 1e-9 := by
  constructor
  · have hnormzero : ∀ g : ℕ → ℂ, (∀ i, g i = 0) → normalize 1 g = zeroState := by
      intro g hg
      funext i
      simp [normalize, hg, zeroState]
    have hpoint : ∀ i : ℕ,
        (if i % 2 = 1 then (0 : ℂ)
          else QSim.applySingleQubitGate OGateType.X 0 initialState i) = 0 := by
      intro i
      by_cases h2 : i % 2 = 1
      · simp [h2]
      · have hb : i.testBit 0 = false := by
          simp [Nat.testBit_zero]
          omega
        have hne : ¬ (i ^^^ 2 ^ 0 = 0) := by
          intro hc
          rw [Nat.xor_eq_zero] at hc
          omega
        simp [h2, QSim.applySingleQubitGate, initialState, hb, hne]
        omega
    simp only [QSim.simulate, QSim.simulateGates, QSim.applyNoise, xO0]
    norm_num
    exact hnormzero _ hpoint
  · simp [zeroState]
    norm_num

/-! Claim C1. -/

/-- The four-gate circuit `X q0; CNOT(0,1); X q0; H q0` on two qubits used
to refute the optimizer's observational-equivalence contract. -/
def c1Gates : List OGate := [xO0, cnotO01, xO0, hO0]

/-- The state reached by the simulator on `c1Gates` before the final
normalization. -/
noncomputable def c1Final : ℕ → ℂ :=
  QSim.applySingleQubitGate OGateType.H 0
    (QSim.applySingleQubitGate OGateType.X 0
      (QSim.applyTwoQubitGate OGateType.CNOT 0 1
        (QSim.applySingleQubitGate OGateType.X 0 initialState)))

/-- The state reached by the simulator on the optimized circuit
`CNOT(0,1); H q0` before the final normalization. -/
noncomputable def c1OptFinal : ℕ → ℂ :=
  QSim.applySingleQubitGate OGateType.H 0
    (QSim.applyTwoQubitGate OGateType.CNOT 0 1 initialState)

/-- The final state of the simulator on the original circuit. -/
noncomputable def c1OrigState : ℕ → ℂ :=
  (QSim.simulate 2 NoiseModel.NONE 0 c1Gates [] initialState).getD zeroState

/-- The final state of the simulator on the optimized circuit. -/
noncomputable def c1OptState : ℕ → ℂ :=
  (QSim.simulate 2 NoiseModel.NONE 0 (optimize 2 c1Gates) [] initialState).getD
    zeroState

theorem normSq_one_div_sqrt2 :
    Complex.normSq (1 / ((Real.sqrt 2 : ℝ) : ℂ)) = 1 / 2 := by
  rw [map_div₀, map_one, Complex.normSq_ofReal,
    Real.mul_self_sqrt (by norm_num : (0:ℝ) ≤ 2)]

theorem qsimX_apply (ψ : ℕ → ℂ) (i : ℕ) :
    QSim.applySingleQubitGate OGateType.X 0 ψ i = ψ (i ^^^ 1) := by
  by_cases hb : i.testBit 0 <;> simp [QSim.applySingleQubitGate, hb]

theorem qsimH_apply (ψ : ℕ → ℂ) (i : ℕ) :
    QSim.applySingleQubitGate OGateType.H 0 ψ i =
      if i.testBit 0 then (ψ (i ^^^ 1) - ψ i) / ((Real.sqrt 2 : ℝ) : ℂ)
      else (ψ i + ψ (i ^^^ 1)) / ((Real.sqrt 2 : ℝ) : ℂ) := by
  by_cases hb : i.testBit 0 <;> simp [QSim.applySingleQubitGate, hb]

theorem qsimCNOT_apply (ψ : ℕ → ℂ) (i : ℕ) :
    QSim.applyTwoQubitGate OGateType.CNOT 0 1 ψ i =
      if i.testBit 0 then ψ (i ^^^ 2) else ψ i := by
  by_cases hb : i.testBit 0 <;> simp [QSim.applyTwoQubitGate, hb]

/-- Claim C1 (code bug): `optimize` is not observation-preserving.  On the
legal two-qubit circuit `X q0; CNOT(0,1); X q0; H q0` the cancellation pass
removes the two `X q0` gates although the intervening `CNOT(0,1)` does not
commute with them, so `optimize` returns `CNOT(0,1); H q0`.  Executed from
`|00⟩` by the simulator, the original circuit puts the measurement-outcome
mass on basis states 2 and 3 (probability of outcome 0 is 0) while the
optimized circuit puts it on basis states 0 and 1 (probability of outcome 0
is 1/2): the two outcome distributions differ, and no global phase can
reconcile them.  (The C++ `optimize` takes no level argument; it always runs
all passes.) -/
theorem optimize_changes_outcome_distribution :
    optimize 2 c1Gates = [cnotO01, hO0] ∧
      (QSim.simulate 2 NoiseModel.NONE 0 c1Gates [] initialState).isSome = true ∧
      Complex.normSq (c1OrigState 0) = 0 ∧
      Complex.normSq (c1OptState 0) = 1 / 2 := by
  have hopt : optimize 2 c1Gates = [cnotO01, hO0] := by rfl
  have hsim : QSim.simulate 2 NoiseModel.NONE 0 c1Gates [] initialState =
      some (normalize 2 c1Final) := by
    simp [QSim.simulate, QSim.simulateGates, c1Gates, xO0, cnotO01, hO0, c1Final]
  have hsimOpt : QSim.simulate 2 NoiseModel.NONE 0 [cnotO01, hO0] [] initialState =
      some (normalize 2 c1OptFinal) := by
    simp [QSim.simulate, QSim.simulateGates, cnotO01, hO0, c1OptFinal]
  have f0 : c1Final 0 = 0 := by
    simp [c1Final, qsimH_apply, qsimCNOT_apply, qsimX_apply, initialState]
  have f1 : c1Final 1 = 0 := by
    simp [c1Final, qsimH_apply, qsimCNOT_apply, qsimX_apply, initialState]
  have f2 : c1Final 2 = 1 / ((Real.sqrt 2 : ℝ) : ℂ) := by
    simp [c1Final, qsimH_apply, qsimCNOT_apply, qsimX_apply, initialState]
  have f3 : c1Final 3 = 1 / ((Real.sqrt 2 : ℝ) : ℂ) := by
    simp [c1Final, qsimH_apply, qsimCNOT_apply, qsimX_apply, initialState]
  have g0 : c1OptFinal 0 = 1 / ((Real.sqrt 2 : ℝ) : ℂ) := by
    simp [c1OptFinal, qsimH_apply, qsimCNOT_apply, initialState]
  have g1 : c1OptFinal 1 = 1 / ((Real.sqrt 2 : ℝ) : ℂ) := by
    simp [c1OptFinal, qsimH_apply, qsimCNOT_apply, initialState]
  have g2 : c1OptFinal 2 = 0 := by
    simp [c1OptFinal, qsimH_apply, qsimCNOT_apply, initialState]
  have g3 : c1OptFinal 3 = 0 := by
    simp [c1OptFinal, qsimH_apply, qsimCNOT_apply, initialState]
  have hsum : (∑ i ∈ Finset.range (2 ^ 2), Complex.normSq (c1Final i)) = 1 := by
    rw [show (2 : ℕ) ^ 2 = 4 from rfl]
    rw [Finset.sum_range_succ, Finset.sum_range_succ, Finset.sum_range_succ,
      Finset.sum_range_succ, Finset.sum_range_zero]
    rw [f0, f1, f2, f3, normSq_one_div_sqrt2]
    norm_num
  have hsumOpt : (∑ i ∈ Finset.range (2 ^ 2), Complex.normSq (c1OptFinal i)) = 1 := by
    rw [show (2 : ℕ) ^ 2 = 4 from rfl]
    rw [Finset.sum_range_succ, Finset.sum_range_succ, Finset.sum_range_succ,
      Finset.sum_range_succ, Finset.sum_range_zero]
    rw [g0, g1, g2, g3, normSq_one_div_sqrt2]
    norm_num
  refine ⟨hopt, ?_, ?_, ?_⟩
  · rw [hsim]
    rfl
  · have : c1OrigState 0 = 0 := by
      rw [c1OrigState, hsim, Option.getD_some, normalize]
      simp only [hsum, Real.sqrt_one, f0]
      norm_num
    rw [this]
    simp
  · have : c1OptState 0 = 1 / ((Real.sqrt 2 : ℝ) : ℂ) := by
      rw [c1OptState, hopt, hsimOpt, Option.getD_some, normalize]
      simp only [hsumOpt, Real.sqrt_one, g0]
      norm_num
    rw [this, normSq_one_div_sqrt2]

end OQC
